import Mathlib

/-!
Verification of the blocknostr social-sphere cache subsystem.

The repository's cache barrel module (src/unnamed/part_000) exports
`BaseCache`, `EventFilter`, `FeedCache`, `ThreadCache`, `CACHE_EXPIRY` and
friends from sibling modules whose source files are not part of the staged
tree; those components are therefore modelled here from the specification's
words (each such definition says so in its doc comment).  The world-chat hook
`useWorldChatRedux` is present in full and is embedded directly from its
source.
-/

namespace BlockNostr

/-- Modelled from the spec: the cached protocol event payload (spec section 3,
"Cached protocol event"); the event type's defining module is re-exported by
src/unnamed/part_000 but absent from the staged sources.  Timestamps and kinds
are naturals, tags an ordered sequence of ordered sequences of strings. -/
structure NostrEvent where
  id : String
  pubkey : String
  createdAt : Nat
  kind : Nat
  tags : List (List String)
  content : String
deriving Repr, DecidableEq

/-- Modelled from the spec: the Filter Evaluator's filter shape (spec section
4.2); `src/utils/event-filter` is re-exported by src/unnamed/part_000 but its
source is absent.  All fields are optional, sets are lists, `tagFilters`
collects the `#<tagName>` constraints as (tag name, allowed first values)
pairs. -/
structure EventFilter where
  ids : Option (List String) := none
  authors : Option (List String) := none
  kinds : Option (List Nat) := none
  tagFilters : List (String × List String) := []
  since : Option Nat := none
  untilTs : Option Nat := none
  limit : Option Nat := none
deriving Repr

namespace EventFilter

/-- An optional set-membership constraint: absent means no constraint. -/
def checkOptList {α : Type} [DecidableEq α] (field : Option (List α)) (x : α) : Bool :=
  match field with
  | none => true
  | some l => decide (x ∈ l)

/-- One `#<tagName>` constraint: the event carries a tag of that name whose
first value lies in the allowed set (spec section 4.2). -/
def tagMatch (e : NostrEvent) (tagName : String) (vals : List String) : Bool :=
  e.tags.any fun t =>
    decide (t.head? = some tagName) && (t.get? 1).any fun v => decide (v ∈ vals)

/-- The `since` constraint as a boolean check (spec section 4.2:
event `createdAt >= since`). -/
def sinceCheck (e : NostrEvent) (f : EventFilter) : Bool :=
  match f.since with
  | none => true
  | some s => decide (s ≤ e.createdAt)

/-- The `until` constraint as a boolean check (spec section 4.2:
event `createdAt <= until`). -/
def untilCheck (e : NostrEvent) (f : EventFilter) : Bool :=
  match f.untilTs with
  | none => true
  | some u => decide (e.createdAt ≤ u)

/-- Modelled from the spec: `matches(event, filter)` (field `until` and the function name are Lean keywords, rendered here as `untilTs` and `matchesEvent`) of the Filter Evaluator
(spec section 4.2): conjunction of every present field constraint. -/
def matchesEvent (e : NostrEvent) (f : EventFilter) : Bool :=
  checkOptList f.ids e.id &&
  checkOptList f.authors e.pubkey &&
  checkOptList f.kinds e.kind &&
  (f.tagFilters.all fun tf => tagMatch e tf.1 tf.2) &&
  sinceCheck e f &&
  untilCheck e f

/-- Propositional reading of the `ids` constraint. -/
def IdsHold (e : NostrEvent) (f : EventFilter) : Prop :=
  ∀ l, f.ids = some l → e.id ∈ l

/-- Propositional reading of the `authors` constraint. -/
def AuthorsHold (e : NostrEvent) (f : EventFilter) : Prop :=
  ∀ l, f.authors = some l → e.pubkey ∈ l

/-- Propositional reading of the `kinds` constraint. -/
def KindsHold (e : NostrEvent) (f : EventFilter) : Prop :=
  ∀ l, f.kinds = some l → e.kind ∈ l

/-- Propositional reading of the tag constraints. -/
def TagsHold (e : NostrEvent) (f : EventFilter) : Prop :=
  ∀ tf ∈ f.tagFilters, ∃ t ∈ e.tags,
    t.head? = some tf.1 ∧ ∃ v, t.get? 1 = some v ∧ v ∈ tf.2

/-- Propositional reading of the `since` constraint. -/
def SinceHolds (e : NostrEvent) (f : EventFilter) : Prop :=
  ∀ s, f.since = some s → s ≤ e.createdAt

/-- Propositional reading of the `until` constraint. -/
def UntilHolds (e : NostrEvent) (f : EventFilter) : Prop :=
  ∀ u, f.untilTs = some u → e.createdAt ≤ u

/-- Modelled from the spec: the Filter Evaluator's ordering rule key
(spec section 4.2): `a` precedes (or equals) `b` when `a.createdAt` is
larger, or they are equal and `a.id ≤ b.id` lexicographically. -/
def eventLE (a b : NostrEvent) : Bool :=
  decide (b.createdAt < a.createdAt) ||
    (decide (a.createdAt = b.createdAt) && decide (a.id ≤ b.id))

/-- The ordering rule as a relation, for Mathlib's sorting lemmas. -/
def EventBefore (a b : NostrEvent) : Prop := eventLE a b = true

instance : DecidableRel EventBefore := fun a b => by
  unfold EventBefore; infer_instance

/-- Sort by `createdAt` descending, ties broken by `id` ascending
(spec section 4.2, "Ordering"). -/
def sortEvents (l : List NostrEvent) : List NostrEvent :=
  l.insertionSort EventBefore

/-- Modelled from the spec: `selectAll(events, filter)` of the Filter
Evaluator (spec section 4.2): keep the matches, sort by the ordering rule,
then truncate to `limit` from the front when present. -/
def selectAll (events : List NostrEvent) (f : EventFilter) : List NostrEvent :=
  let sorted := sortEvents (events.filter fun e => matchesEvent e f)
  match f.limit with
  | none => sorted
  | some n => sorted.take n

end EventFilter

namespace FeedCache

/-- Remove later occurrences of an already-seen id, keeping first
occurrences in order; `seen` collects the ids already emitted. -/
def dedupeGo (seen : List String) : List NostrEvent → List NostrEvent
  | [] => []
  | e :: rest =>
    if e.id ∈ seen then dedupeGo seen rest
    else e :: dedupeGo (e.id :: seen) rest

/-- De-duplicate a sequence of events by id, keeping first occurrences. -/
def dedupeById (l : List NostrEvent) : List NostrEvent := dedupeGo [] l

/-- The number of occurrences of an id in a sequence of events. -/
def countById (i : String) (l : List NostrEvent) : Nat :=
  l.countP fun e => decide (e.id = i)

/-- Modelled from the spec: the Feed Cache's stored page (spec sections 3
and 4.5): the current known ordered page of a feed plus its pagination
cursor `(lastTimestamp, lastId)`; the feed-cache module is re-exported by
src/unnamed/part_000 but absent from the staged sources. -/
structure FeedPage where
  events : List NostrEvent
  cursor : Option (Nat × String)
deriving Repr

/-- Modelled from the spec: `appendPage(feedKey, events)` (spec section
4.5): merge the new events into the stored sequence, re-sort by the Filter
Evaluator's ordering rule, de-duplicate by id, and advance the cursor to
the oldest item's `(createdAt, id)`. -/
def appendPage (st : FeedPage) (newEvents : List NostrEvent) : FeedPage :=
  let merged := EventFilter.sortEvents (st.events ++ newEvents)
  let deduped := dedupeById merged
  { events := deduped
    cursor := deduped.getLast?.map fun e => (e.createdAt, e.id) }

end FeedCache

/-- Modelled from the spec: `CacheEntry<T>` (spec section 3): value plus
`storedAt` and `expiresAt` timestamps; the types module is re-exported by
src/unnamed/part_000 but absent from the staged sources. -/
structure CacheEntry (T : Type) where
  value : T
  storedAt : Nat
  expiresAt : Nat
deriving Repr, DecidableEq

/-- Modelled from the spec: `CacheConfig` (spec section 3): online and
offline TTL durations and the namespace key prefix. -/
structure CacheConfig where
  onlineTTL : Nat
  offlineTTL : Nat
  keyNamespace : String
deriving Repr, DecidableEq

/-- Modelled from the spec: the `CACHE_EXPIRY` online TTL constant exported
by src/unnamed/part_000 from the absent config module.  The spec fixes no
number, only the relation to the offline TTL; one hour of milliseconds is
used as the representative value. -/
def CACHE_EXPIRY : Nat := 60 * 60 * 1000

/-- Modelled from the spec: the `OFFLINE_CACHE_EXPIRY` offline TTL constant
exported by src/unnamed/part_000 from the absent config module.  The spec
requires it to be at least the online TTL; twenty-four hours of
milliseconds is used as the representative value. -/
def OFFLINE_CACHE_EXPIRY : Nat := 24 * 60 * 60 * 1000

/-- The process-wide configuration built from the exported constants. -/
def defaultConfig : CacheConfig :=
  { onlineTTL := CACHE_EXPIRY
    offlineTTL := OFFLINE_CACHE_EXPIRY
    keyNamespace := "blocknostr:" }

namespace BaseCache

/-- Modelled from the spec: the Base Cache Engine's two tiers (spec section
4.1): the authoritative in-memory tier and the best-effort durable tier,
each an association list from string keys to entries; the base-cache module
is re-exported by src/unnamed/part_000 but absent from the staged
sources. -/
structure State (T : Type) where
  memory : List (String × CacheEntry T)
  durable : List (String × CacheEntry T)
deriving Repr

/-- Look a key up in one tier. -/
def lookupEntry {T : Type} (k : String) (tier : List (String × CacheEntry T)) :
    Option (CacheEntry T) :=
  (tier.find? fun p => decide (p.1 = k)).map Prod.snd

/-- Remove a key from one tier. -/
def removeKey {T : Type} (k : String) (tier : List (String × CacheEntry T)) :
    List (String × CacheEntry T) :=
  tier.filter fun p => decide (p.1 ≠ k)

/-- Write a key into one tier, overwriting any previous entry wholesale. -/
def writeEntry {T : Type} (k : String) (e : CacheEntry T)
    (tier : List (String × CacheEntry T)) : List (String × CacheEntry T) :=
  (k, e) :: removeKey k tier

/-- Whether a key of one tier starts with the given namespace string
(spec section 4.1, `invalidatePrefix`). -/
def keyStarts (k pre : String) : Bool := pre.data.isPrefixOf k.data

/-- Modelled from the spec: `set(key, value, ttlOverride?)` (spec section
4.1): `storedAt = now`, `expiresAt = now + (ttlOverride ?? configuredTTL)`
where the configured TTL is the online one when the caller says the process
is online and the offline one otherwise; the durable mirror is best-effort,
`durableOk = false` standing for a failed durable write that the engine
swallows, leaving the in-memory write intact. -/
def set {T : Type} (cfg : CacheConfig) (online : Bool) (now : Nat) (k : String)
    (v : T) (ttlOverride : Option Nat) (durableOk : Bool) (s : State T) : State T :=
  let ttl := ttlOverride.getD (if online then cfg.onlineTTL else cfg.offlineTTL)
  let e : CacheEntry T := { value := v, storedAt := now, expiresAt := now + ttl }
  { memory := writeEntry k e s.memory
    durable := if durableOk then writeEntry k e s.durable else s.durable }

/-- Modelled from the spec: `get(key)` (spec section 4.1): the stored value
when the entry exists and is live (`now < expiresAt`); on expiry, deletes
the entry (lazy eviction, best-effort on the durable tier) and returns
miss; `none` is the miss sentinel. -/
def get {T : Type} (now : Nat) (k : String) (durableOk : Bool) (s : State T) :
    Option T × State T :=
  match lookupEntry k s.memory with
  | none => (none, s)
  | some e =>
    if now < e.expiresAt then (some e.value, s)
    else
      (none,
        { memory := removeKey k s.memory
          durable := if durableOk then removeKey k s.durable else s.durable })

/-- Modelled from the spec: `invalidate(key)` (spec section 4.1): removes
the entry from both tiers unconditionally (durable deletion best-effort). -/
def invalidate {T : Type} (k : String) (durableOk : Bool) (s : State T) : State T :=
  { memory := removeKey k s.memory
    durable := if durableOk then removeKey k s.durable else s.durable }

/-- Modelled from the spec: `invalidatePrefix(prefix)` (spec section 4.1):
removes every entry whose key starts with the given string (durable
deletions best-effort). -/
def invalidatePrefix {T : Type} (pre : String) (durableOk : Bool) (s : State T) :
    State T :=
  { memory := s.memory.filter fun p => !(keyStarts p.1 pre)
    durable :=
      if durableOk then s.durable.filter fun p => !(keyStarts p.1 pre)
      else s.durable }

/-- Modelled from the spec: `prune()` (spec section 4.1): removes every
entry, across both tiers, whose `expiresAt <= now`, and returns the count
of removed (in-memory) entries for observability; durable removals are
best-effort. -/
def prune {T : Type} (now : Nat) (durableOk : Bool) (s : State T) :
    Nat × State T :=
  let live := s.memory.filter fun p => decide (now < p.2.expiresAt)
  (s.memory.length - live.length,
    { memory := live
      durable :=
        if durableOk then s.durable.filter fun p => decide (now < p.2.expiresAt)
        else s.durable })

end BaseCache

namespace ThreadCache

/-- A reconstructed thread tree node: the event and its ordered children
(spec section 4.6, `getThread`). -/
inductive ThreadNode where
  | node : NostrEvent → List ThreadNode → ThreadNode
deriving Repr

/-- Look an event up by id in the flat event store (spec section 4.4: the
Event Cache is keyed by event id). -/
def lookupEvent (i : String) (store : List (String × NostrEvent)) :
    Option NostrEvent :=
  (store.find? fun p => decide (p.1 = i)).map Prod.snd

/-- Modelled from the spec: the immediate parent reference extracted from
an event's reply tags (spec section 4.6): the first value of the first tag
named "e", when any. -/
def parentRef (e : NostrEvent) : Option String :=
  (e.tags.find? fun t => decide (t.head? = some "e")).bind fun t => t.get? 1

/-- The child ids recorded under a parent id in the derived parent-to-children
mapping (spec section 3, "Thread relation"). -/
def childIds (cm : List (String × List String)) (i : String) : List String :=
  ((cm.find? fun p => decide (p.1 = i)).map Prod.snd).getD []

/-- Modelled from the spec: `addEvent(event)` (spec section 4.6): append the
event id under its parent's child list, creating the list if absent; an
event with no parent reference joins the roots and adds no mapping. -/
def addEvent (cm : List (String × List String)) (e : NostrEvent) :
    List (String × List String) :=
  match parentRef e with
  | none => cm
  | some p =>
    match cm.find? fun q => decide (q.1 = p) with
    | none => (p, [e.id]) :: cm
    | some _ =>
      cm.map fun q => if q.1 = p then (q.1, q.2 ++ [e.id]) else q

/-- Depth-first traversal over a list of sibling child ids, threading the
visited set left to right through the one-node traversal `f`; omitted
(`none`) results contribute no node. -/
def stepList (f : List String → String → Option ThreadNode × List String) :
    List String → List String → List ThreadNode × List String
  | visited, [] => ([], visited)
  | visited, i :: rest =>
    let r := f visited i
    let rs := stepList f r.2 rest
    (r.1.toList ++ rs.1, rs.2)

/-- Modelled from the spec: one step of `getThread`'s depth-first traversal
(spec section 4.6): visited ids are tracked and repeats excluded; a missing
event is omitted; the returned visited list extends the given one.  `fuel`
bounds recursion depth; `getThread` supplies more fuel than there are
stored events, so the traversal never runs dry. -/
def buildThread (store : List (String × NostrEvent))
    (cm : List (String × List String)) :
    Nat → List String → String → Option ThreadNode × List String
  | 0, visited, _ => (none, visited)
  | fuel + 1, visited, i =>
    if i ∈ visited then (none, visited)
    else
      match lookupEvent i store with
      | none => (none, i :: visited)
      | some e =>
        let r := stepList (fun vis c => buildThread store cm fuel vis c)
          (i :: visited) (childIds cm i)
        (some (.node e r.1), r.2)

/-- Modelled from the spec: `getThread(rootId)` (spec section 4.6):
reconstructs the depth-first ordered tree rooted at `rootId`, resolving
children through the event store. -/
def getThread (store : List (String × NostrEvent))
    (cm : List (String × List String)) (rootId : String) : Option ThreadNode :=
  (buildThread store cm (store.length + 1) [] rootId).1

mutual

/-- All event ids occurring in a thread tree, depth first. -/
def treeIds : ThreadNode → List String
  | .node e cs => e.id :: treeIdsList cs

/-- All event ids occurring in a forest of thread trees. -/
def treeIdsList : List ThreadNode → List String
  | [] => []
  | t :: ts => treeIds t ++ treeIdsList ts

end

/-- The traversal invariant a one-node builder maintains: the visited list
only grows, and a returned tree has pairwise-distinct ids, none of them
previously visited, all of them recorded as visited afterwards and all of
them present in the event store. -/
def BuildInv (store : List (String × NostrEvent))
    (f : List String → String → Option ThreadNode × List String) : Prop :=
  ∀ visited i,
    visited ⊆ (f visited i).2 ∧
    ∀ t, (f visited i).1 = some t →
      (treeIds t).Nodup ∧
      ∀ x ∈ treeIds t,
        x ∉ visited ∧ x ∈ (f visited i).2 ∧ (lookupEvent x store).isSome = true

/-- The spec's malformed self-cycle example (spec section 8): an event whose
reply tag names its own id as parent. -/
def cycleEvent : NostrEvent := ⟨"C", "p", 20, 1, [["e", "C"]], ""⟩

/-- The event store holding only the self-cycle event. -/
def cycleStore : List (String × NostrEvent) := [("C", cycleEvent)]

/-- The parent-to-children mapping produced by adding the self-cycle
event. -/
def cycleMap : List (String × List String) := addEvent [] cycleEvent

end ThreadCache

namespace WorldChat

/-- The code points ECMAScript's `TrimString` strips, WhiteSpace plus
LineTerminator: TAB, LF, VT, FF, CR, space, NBSP U+00A0, the Unicode
space separators (category Zs: U+1680, U+2000 to U+200A, U+202F, U+205F,
U+3000), the line and paragraph separators U+2028 and U+2029, and ZWNBSP
U+FEFF. -/
def jsWhitespace (c : Char) : Bool :=
  c == '\t' || c == '\n' || c == '\x0B' || c == '\x0C' || c == '\r' ||
  c == ' ' || c == '\u00A0' || c == '\u1680' ||
  (decide ('\u2000' ≤ c) && decide (c ≤ '\u200A')) ||
  c == '\u2028' || c == '\u2029' || c == '\u202F' || c == '\u205F' ||
  c == '\u3000' || c == '\uFEFF'

/-- JavaScript's `String.prototype.trim`, embedded over the string's
character list: the ECMAScript whitespace set stripped from both ends
(useWorldChatRedux.ts.backup line 144 applies `content.trim()`). -/
def jsTrim (s : String) : String :=
  ⟨((s.data.dropWhile jsWhitespace).reverse.dropWhile jsWhitespace).reverse⟩

/-- The argument `publishEvent` receives from `sendMessage`
(src/src/components/chat/hooks/useWorldChatRedux.ts.backup lines 147-151). -/
structure PublishRequest where
  content : String
  kind : Nat
  tags : List (List String)
deriving Repr, DecidableEq

/-- The one state update `sendMessage` can dispatch
(useWorldChatRedux.ts.backup lines 154-158): `updateChannelTimestamps`
with the channel, the send timestamp in seconds, and the message count. -/
structure ChannelTimestamps where
  channel : String
  lastMessageTimestamp : Nat
  messageCount : Nat
deriving Repr, DecidableEq

/-- The observable outcome of one `sendMessage` call: what was handed to
`publishEvent` (if anything), what was dispatched (if anything), and
whether the returned promise rejects (the catch block rethrows). -/
structure SendMessageResult where
  published : Option PublishRequest
  dispatched : Option ChannelTimestamps
  threw : Bool
deriving Repr, DecidableEq

/-- The `sendMessage` handler of `useWorldChatRedux`
(useWorldChatRedux.ts.backup lines 143-163), embedded over its reachable
state: the content argument, the `isLoggedIn` flag, the current chat tag,
the current message count and the wall clock in milliseconds; `publishOk`
stands for whether the awaited `publishEvent(...).unwrap()` resolves.
JavaScript's `!content.trim()` is true exactly when the trimmed string is
empty, so the guard compares `jsTrim content` with the empty string. -/
def sendMessage (content : String) (isLoggedIn : Bool) (currentChatTag : String)
    (messagesLength : Nat) (nowMs : Nat) (publishOk : Bool) : SendMessageResult :=
  if jsTrim content = "" || !isLoggedIn then
    { published := none, dispatched := none, threw := false }
  else
    let req : PublishRequest :=
      { content := jsTrim content, kind := 1, tags := [["t", currentChatTag]] }
    if publishOk then
      { published := some req
        dispatched := some
          { channel := currentChatTag
            lastMessageTimestamp := nowMs / 1000
            messageCount := messagesLength + 1 }
        threw := false }
    else
      { published := some req, dispatched := none, threw := true }

end WorldChat

/-- A sample event with `createdAt = 10` (spec section 8's `selectAll`
ordering example). -/
def sampleE10 : NostrEvent := ⟨"e10", "p", 10, 1, [], ""⟩

/-- A sample event with `createdAt = 30` (spec section 8's `selectAll`
ordering example). -/
def sampleE30 : NostrEvent := ⟨"e30", "p", 30, 1, [], ""⟩

/-- A sample event with `createdAt = 20` (spec section 8's `selectAll`
ordering example). -/
def sampleE20 : NostrEvent := ⟨"e20", "p", 20, 1, [], ""⟩

end BlockNostr

/-! ## Theorems -/

namespace BlockNostr

open EventFilter

theorem checkOptList_eq_true {α : Type} [DecidableEq α] (o : Option (List α)) (x : α) :
    checkOptList o x = true ↔ ∀ l, o = some l → x ∈ l := by
  cases o <;> simp [checkOptList]

theorem optionAny_eq_true {α : Type} (o : Option α) (p : α → Bool) :
    o.any p = true ↔ ∃ v, o = some v ∧ p v = true := by
  cases o <;> simp [Option.any]

theorem tagMatch_eq_true (e : NostrEvent) (tagName : String) (vals : List String) :
    tagMatch e tagName vals = true ↔
      ∃ t ∈ e.tags, t.head? = some tagName ∧ ∃ v, t.get? 1 = some v ∧ v ∈ vals := by
  simp [tagMatch, List.any_eq_true, optionAny_eq_true, and_assoc]

theorem sinceCheck_eq_true (e : NostrEvent) (f : EventFilter) :
    sinceCheck e f = true ↔ SinceHolds e f := by
  unfold sinceCheck SinceHolds
  cases f.since <;> simp

theorem untilCheck_eq_true (e : NostrEvent) (f : EventFilter) :
    untilCheck e f = true ↔ UntilHolds e f := by
  unfold untilCheck UntilHolds
  cases f.untilTs <;> simp

theorem matchesEvent_eq_true_iff (e : NostrEvent) (f : EventFilter) :
    matchesEvent e f = true ↔
      IdsHold e f ∧ AuthorsHold e f ∧ KindsHold e f ∧ TagsHold e f ∧
        SinceHolds e f ∧ UntilHolds e f := by
  unfold matchesEvent IdsHold AuthorsHold KindsHold TagsHold
  simp only [Bool.and_eq_true, checkOptList_eq_true, sinceCheck_eq_true,
    untilCheck_eq_true, List.all_eq_true, tagMatch_eq_true, and_assoc]

/-- C2: `matches` is conjunctive — true iff every present field constraint
holds of the event; the empty filter matches every event; a filter with
`since > until` matches no event, and the evaluator is a total boolean
function rather than a throwing one. -/
theorem matchesEvent_conjunctive_empty_and_contradictory
    (e : NostrEvent) (f : EventFilter) :
    (matchesEvent e f = true ↔
      IdsHold e f ∧ AuthorsHold e f ∧ KindsHold e f ∧ TagsHold e f ∧
        SinceHolds e f ∧ UntilHolds e f) ∧
    matchesEvent e {} = true ∧
    (∀ s u, f.since = some s → f.untilTs = some u → u < s →
      matchesEvent e f = false) := by
  refine ⟨matchesEvent_eq_true_iff e f, rfl, ?_⟩
  intro s u hs hu hlt
  cases hm : matchesEvent e f
  · rfl
  · exfalso
    obtain ⟨-, -, -, -, hsince, huntil⟩ := (matchesEvent_eq_true_iff e f).1 hm
    have h1 := hsince s hs
    have h2 := huntil u hu
    omega

theorem EventBefore_iff (a b : NostrEvent) :
    EventBefore a b ↔
      b.createdAt < a.createdAt ∨ (a.createdAt = b.createdAt ∧ a.id ≤ b.id) := by
  simp [EventBefore, eventLE, Bool.or_eq_true, Bool.and_eq_true, decide_eq_true_eq]

instance : IsTotal NostrEvent EventBefore :=
  ⟨fun a b => by
    rw [EventBefore_iff, EventBefore_iff]
    rcases Nat.lt_trichotomy a.createdAt b.createdAt with h | h | h
    · exact Or.inr (Or.inl h)
    · rcases le_total a.id b.id with hid | hid
      · exact Or.inl (Or.inr ⟨h, hid⟩)
      · exact Or.inr (Or.inr ⟨h.symm, hid⟩)
    · exact Or.inl (Or.inl h)⟩

instance : IsTrans NostrEvent EventBefore :=
  ⟨fun a b c hab hbc => by
    rw [EventBefore_iff] at hab hbc ⊢
    rcases hab with h1 | ⟨h1, hid1⟩ <;> rcases hbc with h2 | ⟨h2, hid2⟩
    · exact Or.inl (by omega)
    · exact Or.inl (by omega)
    · exact Or.inl (by omega)
    · exact Or.inr ⟨by omega, le_trans hid1 hid2⟩⟩

/-- C3: `selectAll` returns the matching events sorted by `createdAt`
descending with ties broken by `id` ascending; with no limit the output is
a permutation of the matching events; a `limit` truncates the sorted result
from the front (the output is an initial segment of the full sorted
matches); and on events with `createdAt` [10, 30, 20] the output order is
[30, 20, 10] with no limit and [30, 20] under `limit = 2`. -/
theorem selectAll_sorted_limited_with_examples :
    (∀ (events : List NostrEvent) (f : EventFilter),
      List.Sorted EventBefore (selectAll events f)) ∧
    (∀ (events : List NostrEvent) (f : EventFilter), f.limit = none →
      (selectAll events f).Perm (events.filter fun e => matchesEvent e f)) ∧
    (∀ (events : List NostrEvent) (f : EventFilter) (n : Nat), f.limit = some n →
      ∃ rest, sortEvents (events.filter fun e => matchesEvent e f) =
        selectAll events f ++ rest) ∧
    selectAll [sampleE10, sampleE30, sampleE20] {} =
      [sampleE30, sampleE20, sampleE10] ∧
    selectAll [sampleE10, sampleE30, sampleE20] { limit := some 2 } =
      [sampleE30, sampleE20] := by
  refine ⟨?_, ?_, ?_, by decide, by decide⟩
  · intro events f
    unfold selectAll sortEvents
    cases f.limit with
    | none => exact List.sorted_insertionSort EventBefore _
    | some n =>
      exact (List.sorted_insertionSort EventBefore _).sublist (List.take_sublist n _)
  · intro events f hl
    unfold selectAll sortEvents
    rw [hl]
    exact List.perm_insertionSort EventBefore _
  · intro events f n hl
    refine ⟨(sortEvents (events.filter fun e => matchesEvent e f)).drop n, ?_⟩
    unfold selectAll
    rw [hl]
    exact (List.take_append_drop n _).symm

namespace BaseCache

theorem lookupEntry_writeEntry_self {T : Type} (k : String) (e : CacheEntry T)
    (tier : List (String × CacheEntry T)) :
    lookupEntry k (writeEntry k e tier) = some e := by
  simp [lookupEntry, writeEntry, List.find?]

theorem lookupEntry_filter {T : Type} (q : String → Bool)
    (tier : List (String × CacheEntry T)) (k : String) :
    lookupEntry k (tier.filter fun p => q p.1) =
      if q k then lookupEntry k tier else none := by
  induction tier with
  | nil => cases hq : q k <;> simp [lookupEntry]

  | cons hd tl ih =>
    by_cases hk : hd.1 = k
    · subst hk
      cases hq : q hd.1 <;> simp [lookupEntry, List.find?, hq, List.filter] <;>
        simpa [lookupEntry, hq] using ih
    · cases hq : q hd.1 <;>
        simp [lookupEntry, List.find?, List.filter, hq, hk] <;>
        simpa [lookupEntry, hq] using ih

theorem lookupEntry_removeKey_self {T : Type} (k : String)
    (tier : List (String × CacheEntry T)) :
    lookupEntry k (removeKey k tier) = none := by
  have h := lookupEntry_filter (fun x => decide (x ≠ k)) tier k
  simpa [removeKey] using h

end BaseCache

/-- C1: immediately after `set(K, V)` — no intervening operation — and at any
read time still inside the written entry's TTL window, `get(K)` returns V,
whatever the connectivity mode, TTL override and durable-mirror outcomes. -/
theorem set_then_get_returns_value {T : Type} (cfg : CacheConfig) (online : Bool)
    (now : Nat) (k : String) (v : T) (ttlOverride : Option Nat)
    (dOk dOk2 : Bool) (s : BaseCache.State T) (readNow : Nat)
    (h : readNow < now +
      ttlOverride.getD (if online then cfg.onlineTTL else cfg.offlineTTL)) :
    (BaseCache.get readNow k dOk2
      (BaseCache.set cfg online now k v ttlOverride dOk s)).1 = some v := by
  unfold BaseCache.get BaseCache.set
  simp only [BaseCache.lookupEntry_writeEntry_self]
  simp [h]

/-- Closed instance of C1 at a concrete input. -/
theorem set_then_get_returns_value_witness :
    (BaseCache.get 0 "k" true
      (BaseCache.set defaultConfig true 0 "k" (42 : Nat) none true ⟨[], []⟩)).1 =
      some 42 :=
  set_then_get_returns_value defaultConfig true 0 "k" 42 none true true ⟨[], []⟩ 0
    (by decide)

/-- C4: once `now >= expiresAt`, `get` on that key returns miss and deletes
the entry (lazy eviction), and `prune()` leaves no expired entry in either
tier (the durable removal succeeding) while returning the number of entries
removed from the authoritative in-memory tier. -/
theorem expired_get_misses_and_prune_removes {T : Type}
    (s : BaseCache.State T) (k : String) (e : CacheEntry T) (now : Nat)
    (dOk : Bool) (hk : BaseCache.lookupEntry k s.memory = some e)
    (he : e.expiresAt ≤ now) :
    (BaseCache.get now k dOk s).1 = none ∧
    BaseCache.lookupEntry k (BaseCache.get now k dOk s).2.memory = none ∧
    (∀ p ∈ (BaseCache.prune now dOk s).2.memory, now < p.2.expiresAt) ∧
    (∀ p ∈ (BaseCache.prune now true s).2.durable, now < p.2.expiresAt) ∧
    (BaseCache.prune now dOk s).1 + (BaseCache.prune now dOk s).2.memory.length =
      s.memory.length := by
  have hnl : ¬ now < e.expiresAt := by omega
  refine ⟨?_, ?_, ?_, ?_, ?_⟩
  · unfold BaseCache.get
    rw [hk]
    simp [hnl]
  · unfold BaseCache.get
    rw [hk]
    simp [hnl, BaseCache.lookupEntry_removeKey_self]
  · intro p hp
    unfold BaseCache.prune at hp
    simp only [List.mem_filter, decide_eq_true_eq] at hp
    exact hp.2
  · intro p hp
    unfold BaseCache.prune at hp
    simp at hp
    exact hp.2
  · unfold BaseCache.prune
    simp only []
    exact Nat.sub_add_cancel (List.length_filter_le _ _)

/-- Closed instance of C4 at a concrete input: an entry written to expire at
time 5, read and pruned at time 10. -/
theorem expired_get_misses_and_prune_removes_witness :
    (BaseCache.get 10 "k" true
      (⟨[("k", ⟨7, 0, 5⟩)], [("k", ⟨7, 0, 5⟩)]⟩ : BaseCache.State Nat)).1 = none ∧
    BaseCache.lookupEntry "k"
      (BaseCache.get 10 "k" true
        (⟨[("k", ⟨7, 0, 5⟩)], [("k", ⟨7, 0, 5⟩)]⟩ : BaseCache.State Nat)).2.memory =
      none ∧
    (∀ p ∈ (BaseCache.prune 10 true
      (⟨[("k", ⟨7, 0, 5⟩)], [("k", ⟨7, 0, 5⟩)]⟩ : BaseCache.State Nat)).2.memory,
      10 < p.2.expiresAt) ∧
    (∀ p ∈ (BaseCache.prune 10 true
      (⟨[("k", ⟨7, 0, 5⟩)], [("k", ⟨7, 0, 5⟩)]⟩ : BaseCache.State Nat)).2.durable,
      10 < p.2.expiresAt) ∧
    (BaseCache.prune 10 true
      (⟨[("k", ⟨7, 0, 5⟩)], [("k", ⟨7, 0, 5⟩)]⟩ : BaseCache.State Nat)).1 +
      (BaseCache.prune 10 true
        (⟨[("k", ⟨7, 0, 5⟩)], [("k", ⟨7, 0, 5⟩)]⟩ : BaseCache.State Nat)).2.memory.length =
      ([("k", (⟨7, 0, 5⟩ : CacheEntry Nat))] : List (String × CacheEntry Nat)).length :=
  expired_get_misses_and_prune_removes
    (⟨[("k", ⟨7, 0, 5⟩)], [("k", ⟨7, 0, 5⟩)]⟩ : BaseCache.State Nat) "k"
    ⟨7, 0, 5⟩ 10 true (by decide) (by decide)

/-- C7: `invalidatePrefix(prefix)` removes every entry whose key starts with
the prefix string and leaves every other entry's lookup unchanged, on the
in-memory tier for any durable outcome and on the durable tier when its
deletions succeed. -/
theorem invalidatePrefix_removes_exactly_matching {T : Type}
    (s : BaseCache.State T) (pre k : String) (dOk : Bool) :
    (BaseCache.keyStarts k pre = true →
      BaseCache.lookupEntry k (BaseCache.invalidatePrefix pre dOk s).memory = none ∧
      BaseCache.lookupEntry k (BaseCache.invalidatePrefix pre true s).durable = none) ∧
    (BaseCache.keyStarts k pre = false →
      BaseCache.lookupEntry k (BaseCache.invalidatePrefix pre dOk s).memory =
        BaseCache.lookupEntry k s.memory ∧
      BaseCache.lookupEntry k (BaseCache.invalidatePrefix pre true s).durable =
        BaseCache.lookupEntry k s.durable) := by
  unfold BaseCache.invalidatePrefix
  constructor
  · intro hks
    constructor
    · have h := BaseCache.lookupEntry_filter
        (fun x => !(BaseCache.keyStarts x pre)) s.memory k
      simpa [hks] using h
    · have h := BaseCache.lookupEntry_filter
        (fun x => !(BaseCache.keyStarts x pre)) s.durable k
      simpa [hks] using h
  · intro hks
    constructor
    · have h := BaseCache.lookupEntry_filter
        (fun x => !(BaseCache.keyStarts x pre)) s.memory k
      simpa [hks] using h
    · have h := BaseCache.lookupEntry_filter
        (fun x => !(BaseCache.keyStarts x pre)) s.durable k
      simpa [hks] using h

/-- C8: the configured offline TTL is at least the online TTL, and an
offline-mode write produces an `expiresAt` at least as far out as the same
online-mode write at the same timestamp. -/
theorem offline_ttl_dominates_online :
    CACHE_EXPIRY ≤ OFFLINE_CACHE_EXPIRY ∧
    defaultConfig.onlineTTL ≤ defaultConfig.offlineTTL ∧
    (∀ (T : Type) (now : Nat) (k : String) (v : T) (dOk : Bool)
      (s : BaseCache.State T),
      ∃ eOff eOn : CacheEntry T,
        BaseCache.lookupEntry k
          (BaseCache.set defaultConfig false now k v none dOk s).memory = some eOff ∧
        BaseCache.lookupEntry k
          (BaseCache.set defaultConfig true now k v none dOk s).memory = some eOn ∧
        eOn.storedAt = eOff.storedAt ∧ eOn.expiresAt ≤ eOff.expiresAt) := by
  refine ⟨by decide, by decide, ?_⟩
  intro T now k v dOk s
  refine ⟨⟨v, now, now + OFFLINE_CACHE_EXPIRY⟩, ⟨v, now, now + CACHE_EXPIRY⟩,
    ?_, ?_, rfl, Nat.add_le_add_left (by decide) now⟩
  · unfold BaseCache.set
    simpa using BaseCache.lookupEntry_writeEntry_self k _ s.memory
  · unfold BaseCache.set
    simpa using BaseCache.lookupEntry_writeEntry_self k _ s.memory

/-- C9: whatever the durable-store outcome (the `false` flag standing for a
failed and swallowed durable read/write/delete), every cache operation
returns the same result and leaves the same authoritative in-memory tier as
when the durable store succeeds, and the in-memory write performed by `set`
still completes. -/
theorem durable_failure_never_propagates {T : Type} (cfg : CacheConfig)
    (online : Bool) (now readNow : Nat) (k pre : String) (v : T)
    (ttlOverride : Option Nat) (s : BaseCache.State T) :
    (BaseCache.set cfg online now k v ttlOverride false s).memory =
      (BaseCache.set cfg online now k v ttlOverride true s).memory ∧
    BaseCache.lookupEntry k
      (BaseCache.set cfg online now k v ttlOverride false s).memory =
      some ⟨v, now,
        now + ttlOverride.getD (if online then cfg.onlineTTL else cfg.offlineTTL)⟩ ∧
    (BaseCache.get readNow k false s).1 = (BaseCache.get readNow k true s).1 ∧
    (BaseCache.get readNow k false s).2.memory =
      (BaseCache.get readNow k true s).2.memory ∧
    (BaseCache.invalidate k false s).memory =
      (BaseCache.invalidate k true s).memory ∧
    (BaseCache.invalidatePrefix pre false s).memory =
      (BaseCache.invalidatePrefix pre true s).memory ∧
    (BaseCache.prune readNow false s).1 = (BaseCache.prune readNow true s).1 ∧
    (BaseCache.prune readNow false s).2.memory =
      (BaseCache.prune readNow true s).2.memory := by
  refine ⟨rfl, ?_, ?_, ?_, rfl, rfl, rfl, rfl⟩
  · unfold BaseCache.set
    simpa using BaseCache.lookupEntry_writeEntry_self k _ s.memory
  · unfold BaseCache.get
    cases h : BaseCache.lookupEntry k s.memory with
    | none => rfl
    | some e => by_cases hl : readNow < e.expiresAt <;> simp [hl]
  · unfold BaseCache.get
    cases h : BaseCache.lookupEntry k s.memory with
    | none => rfl
    | some e => by_cases hl : readNow < e.expiresAt <;> simp [hl]

namespace FeedCache

theorem dedupeGo_sublist (l : List NostrEvent) :
    ∀ seen, (dedupeGo seen l).Sublist l := by
  induction l with
  | nil => intro seen; simp [dedupeGo]
  | cons e rest ih =>
    intro seen
    unfold dedupeGo
    by_cases h : e.id ∈ seen
    · simp only [h, if_true]
      exact (ih seen).trans (List.sublist_cons_self _ _)
    · simp only [h, if_false]
      exact (ih (e.id :: seen)).cons₂ e

theorem countById_dedupeGo (i : String) (l : List NostrEvent) :
    ∀ seen, countById i (dedupeGo seen l) =
      if i ∈ seen then 0
      else if i ∈ l.map (fun e => e.id) then 1 else 0 := by
  induction l with
  | nil => intro seen; by_cases h : i ∈ seen <;> simp [dedupeGo, countById, h]
  | cons e rest ih =>
    intro seen
    unfold dedupeGo
    by_cases hes : e.id ∈ seen
    · rw [if_pos hes, ih seen]
      by_cases his : i ∈ seen
      · simp [his]
      · have hne : i ≠ e.id := fun h => his (h ▸ hes)
        simp [his, hne]
    · rw [if_neg hes]
      have hcons : countById i (e :: dedupeGo (e.id :: seen) rest) =
          countById i (dedupeGo (e.id :: seen) rest) +
            if e.id = i then 1 else 0 := by
        simp [countById, List.countP_cons]
      rw [hcons, ih (e.id :: seen)]
      by_cases hie : i = e.id
      · subst hie
        simp [hes]
      · have h1 : (i ∈ e.id :: seen) ↔ i ∈ seen := by
          simp [List.mem_cons, hie]
        by_cases his : i ∈ seen
        · simp [h1, his, Ne.symm hie]
        · simp [h1, his, Ne.symm hie, hie]

theorem countById_dedupeById (i : String) (l : List NostrEvent) :
    countById i (dedupeById l) = if i ∈ l.map (fun e => e.id) then 1 else 0 := by
  simpa [dedupeById] using countById_dedupeGo i l []

theorem countById_perm {l l' : List NostrEvent} (h : l.Perm l') (i : String) :
    countById i l = countById i l' := by
  simp [countById, h.countP_eq]

/-- C6: `appendPage` is idempotent under duplicate ids — appending the same
event twice, in one call or across two calls, leaves exactly one occurrence
of that event's id in the stored sequence; every id occurs at most once in
any `appendPage` result; and every `appendPage` result is sorted by the
Filter Evaluator's ordering rule. -/
theorem appendPage_idempotent_under_duplicate_ids
    (st : FeedPage) (e : NostrEvent) :
    countById e.id (appendPage st [e, e]).events = 1 ∧
    countById e.id (appendPage (appendPage st [e]) [e]).events = 1 ∧
    (∀ (st' : FeedPage) (newEvents : List NostrEvent) (i : String),
      countById i (appendPage st' newEvents).events ≤ 1) ∧
    (∀ (st' : FeedPage) (newEvents : List NostrEvent),
      List.Sorted EventFilter.EventBefore (appendPage st' newEvents).events) := by
  have hmem : ∀ (base : List NostrEvent) (x : NostrEvent) (pre post : List NostrEvent),
      x.id ∈ (EventFilter.sortEvents (base ++ (pre ++ x :: post))).map
        (fun ev => ev.id) := by
    intro base x pre post
    have hx : x ∈ EventFilter.sortEvents (base ++ (pre ++ x :: post)) :=
      (List.perm_insertionSort EventFilter.EventBefore _).mem_iff.mpr
        (by simp)
    exact List.mem_map_of_mem _ hx
  refine ⟨?_, ?_, ?_, ?_⟩
  · show countById e.id (dedupeById
      (EventFilter.sortEvents (st.events ++ [e, e]))) = 1
    rw [countById_dedupeById]
    have := hmem st.events e [] [e]
    simp only [List.cons_append, List.nil_append] at this ⊢
    simp [this]
  · show countById e.id (dedupeById
      (EventFilter.sortEvents ((appendPage st [e]).events ++ [e]))) = 1
    rw [countById_dedupeById]
    have := hmem (appendPage st [e]).events e [] []
    simp only [List.cons_append, List.nil_append] at this ⊢
    simp [this]
  · intro st' newEvents i
    show countById i (dedupeById
      (EventFilter.sortEvents (st'.events ++ newEvents))) ≤ 1
    rw [countById_dedupeById]
    split <;> omega
  · intro st' newEvents
    exact (List.sorted_insertionSort EventFilter.EventBefore _).sublist
      (dedupeGo_sublist _ [])

end FeedCache

namespace ThreadCache

theorem treeIdsList_cons (t : ThreadNode) (ts : List ThreadNode) :
    treeIdsList (t :: ts) = treeIds t ++ treeIdsList ts := by
  rw [treeIdsList]

theorem treeIds_node (e : NostrEvent) (cs : List ThreadNode) :
    treeIds (.node e cs) = e.id :: treeIdsList cs := by
  rw [treeIds]

theorem lookupEvent_id {store : List (String × NostrEvent)}
    (hwf : ∀ p ∈ store, p.2.id = p.1) {i : String} {e : NostrEvent}
    (h : lookupEvent i store = some e) : e.id = i := by
  unfold lookupEvent at h
  cases hf : store.find? (fun p => decide (p.1 = i)) with
  | none => rw [hf] at h; cases h
  | some p =>
    rw [hf] at h
    simp at h
    have hpmem := List.mem_of_find?_eq_some hf
    have hpred := List.find?_some hf
    simp only [decide_eq_true_eq] at hpred
    rw [← h, hwf p hpmem, hpred]

theorem stepList_inv (store : List (String × NostrEvent))
    (f : List String → String → Option ThreadNode × List String)
    (hf : BuildInv store f) (ids : List String) :
    ∀ visited,
      visited ⊆ (stepList f visited ids).2 ∧
      (treeIdsList (stepList f visited ids).1).Nodup ∧
      ∀ x ∈ treeIdsList (stepList f visited ids).1,
        x ∉ visited ∧ x ∈ (stepList f visited ids).2 ∧
          (lookupEvent x store).isSome = true := by
  induction ids with
  | nil =>
    intro visited
    refine ⟨List.Subset.refl _, ?_, ?_⟩
    · rw [show treeIdsList (stepList f visited []).1 = [] from rfl]
      exact List.nodup_nil
    · intro x hx
      rw [show treeIdsList (stepList f visited []).1 = [] from rfl] at hx
      cases hx
  | cons i rest ih =>
    intro visited
    have hstep : stepList f visited (i :: rest) =
        ((f visited i).1.toList ++ (stepList f (f visited i).2 rest).1,
          (stepList f (f visited i).2 rest).2) := rfl
    obtain ⟨hm1, hsome⟩ := hf visited i
    obtain ⟨hm2, hnd2, hmem2⟩ := ih (f visited i).2
    rw [hstep]
    cases hr : (f visited i).1 with
    | none =>
      simp only [hr, Option.toList_none, List.nil_append]
      refine ⟨hm1.trans hm2, hnd2, ?_⟩
      intro x hx
      obtain ⟨hnv, hin, hs⟩ := hmem2 x hx
      exact ⟨fun hxv => hnv (hm1 hxv), hin, hs⟩
    | some t =>
      obtain ⟨hndt, hmemt⟩ := hsome t hr
      simp only [hr, Option.toList_some, List.singleton_append, treeIdsList_cons]
      refine ⟨hm1.trans hm2, ?_, ?_⟩
      · refine List.Nodup.append hndt hnd2 ?_
        intro x hxt hxr
        exact (hmem2 x hxr).1 (hmemt x hxt).2.1
      · intro x hx
        rcases List.mem_append.mp hx with hxt | hxr
        · obtain ⟨hnv, hin, hs⟩ := hmemt x hxt
          exact ⟨hnv, hm2 hin, hs⟩
        · obtain ⟨hnv, hin, hs⟩ := hmem2 x hxr
          exact ⟨fun hxv => hnv (hm1 hxv), hin, hs⟩

theorem buildThread_inv (store : List (String × NostrEvent))
    (cm : List (String × List String)) (hwf : ∀ p ∈ store, p.2.id = p.1) :
    ∀ fuel, BuildInv store (buildThread store cm fuel) := by
  intro fuel
  induction fuel with
  | zero =>
    intro visited i
    refine ⟨List.Subset.refl _, ?_⟩
    intro t ht
    cases ht
  | succ fuel ih =>
    intro visited i
    by_cases hv : i ∈ visited
    · have hstep : buildThread store cm (fuel + 1) visited i = (none, visited) := by
        simp [buildThread, hv]
      rw [hstep]
      exact ⟨List.Subset.refl _, fun t ht => by cases ht⟩
    · cases he : lookupEvent i store with
      | none =>
        have hstep : buildThread store cm (fuel + 1) visited i =
            (none, i :: visited) := by
          simp [buildThread, hv, he]
        rw [hstep]
        exact ⟨List.subset_cons_self _ _, fun t ht => by cases ht⟩
      | some e =>
        have hstep : buildThread store cm (fuel + 1) visited i =
            (some (.node e (stepList (fun vis c => buildThread store cm fuel vis c)
                (i :: visited) (childIds cm i)).1),
              (stepList (fun vis c => buildThread store cm fuel vis c)
                (i :: visited) (childIds cm i)).2) := by
          simp [buildThread, hv, he]
        obtain ⟨hm, hnd, hmem⟩ :=
          stepList_inv store _ ih (childIds cm i) (i :: visited)
        rw [hstep]
        have hid : e.id = i := lookupEvent_id hwf he
        refine ⟨(List.subset_cons_self _ _).trans hm, ?_⟩
        intro t ht
        simp only [Option.some_inj] at ht
        subst ht
        constructor
        · rw [treeIds_node]
          refine List.nodup_cons.mpr ⟨?_, hnd⟩
          rw [hid]
          intro hmi
          exact (hmem i hmi).1 (List.mem_cons_self i visited)
        · intro x hx
          rw [treeIds_node] at hx
          rcases List.mem_cons.mp hx with rfl | hx'
          · refine ⟨hid ▸ hv, hm (hid ▸ List.mem_cons_self i visited), ?_⟩
            rw [hid, he]
            rfl
          · obtain ⟨hnv, hin, hs⟩ := hmem x hx'
            exact ⟨fun hxv => hnv (List.mem_cons_of_mem _ hxv), hin, hs⟩

/-- C5: for every store, parent-map and root — cyclic reply references
included — `getThread`'s traversal terminates (it is a total function of
fuel bounded by the store size, visited ids being tracked and repeats
excluded) and returns a tree in which all ids are pairwise distinct, so no
event id appears as its own descendant; moreover every id in the tree has a
cached event in the store, missing children having been omitted rather than
failing the traversal. -/
theorem getThread_no_self_descendant (store : List (String × NostrEvent))
    (cm : List (String × List String)) (rootId : String) (t : ThreadNode)
    (hwf : ∀ p ∈ store, p.2.id = p.1)
    (ht : getThread store cm rootId = some t) :
    (treeIds t).Nodup ∧
    ∀ x ∈ treeIds t, (lookupEvent x store).isSome = true := by
  unfold getThread at ht
  obtain ⟨-, hsome⟩ :=
    buildThread_inv store cm hwf (store.length + 1) [] rootId
  obtain ⟨hnd, hmem⟩ := hsome t ht
  exact ⟨hnd, fun x hx => (hmem x hx).2.2⟩

/-- Closed instance of C5 at the spec's self-cycle input: the event "C"
whose parent reference is its own id; traversal returns the one-node tree,
C not being its own descendant. -/
theorem getThread_no_self_descendant_witness :
    (treeIds (.node cycleEvent [])).Nodup ∧
    ∀ x ∈ treeIds (.node cycleEvent []),
      (lookupEvent x cycleStore).isSome = true :=
  getThread_no_self_descendant cycleStore cycleMap "C" (.node cycleEvent [])
    (by decide) rfl

end ThreadCache

/-- C10: whenever the content trims to the empty string or the user is not
logged in, `sendMessage` resolves without handing anything to
`publishEvent` and without dispatching any state update — no event is
published, no channel timestamp changes, and the promise does not reject. -/
theorem sendMessage_guard_no_publish_no_dispatch (content : String)
    (isLoggedIn : Bool) (currentChatTag : String) (messagesLength nowMs : Nat)
    (publishOk : Bool)
    (h : WorldChat.jsTrim content = "" ∨ isLoggedIn = false) :
    WorldChat.sendMessage content isLoggedIn currentChatTag messagesLength
      nowMs publishOk =
      { published := none, dispatched := none, threw := false } := by
  unfold WorldChat.sendMessage
  rcases h with h | h
  · simp [h]
  · subst h
    simp

/-- Closed instance of C10 at a concrete input: content of a no-break
space, a zero-width no-break space and a plain space — all stripped by
JavaScript's `trim` — while logged in. -/
theorem sendMessage_guard_no_publish_no_dispatch_witness :
    WorldChat.sendMessage "\u00A0\uFEFF " true "world" 5 1700000000000 true =
      { published := none, dispatched := none, threw := false } :=
  sendMessage_guard_no_publish_no_dispatch "\u00A0\uFEFF " true "world" 5
    1700000000000 true (Or.inl (by decide))

end BlockNostr
